import Mathlib

/-!
# Verification of `snax.system/delegate_bandwidth.cpp`

A shallow embedding of the bandwidth-delegation, RAM-market, refund and
escrow-vesting logic of the snax system contract
(`src/contracts/snax.system/delegate_bandwidth.cpp`), with theorems checking
the natural-language specification against it.

Modelling conventions:
* `asset` amounts are modelled as unbounded `Int` (the C++ `int64_t` magnitude;
  the library's checked asset arithmetic aborts on overflow, and no claim here
  exercises overflow).
* C++ integer division (truncation toward zero) is modelled by `Int.tdiv`.
* Timestamps are seconds as `Nat` (the C++ `uint32_t`/`time_point_sec` values;
  wrap-around in year 2106 is not modelled).
* Account names (`account_name`, 64-bit) are modelled as `Nat`; the fixed
  system account names `N(snax.stake)`, `N(b1)`, `N(snax.ram)`,
  `N(snax.ramfee)` are distinguished constants.
* Multi-index tables are modelled as maps from (scope and) primary key to an
  optional row; the escrow table of one scope is a list in iteration order
  (its row type comes from the uses in this file's source; the table
  declaration itself lives in a header that is not part of the sources, and
  all its primary keys are taken to be ≥ 1 so that `lower_bound(1)` visits
  every row).
* External collaborators (authorization, token transfer, resource limit
  setter, vote propagation, deferred-transaction scheduler) are not part of
  the verified state: token transfers are returned as an output trace,
  the deferred-payout task is a per-owner boolean, the rest are dropped.
* Every snax_assert aborts the whole transaction, so an operation is a
  function returning `Option` (`none` = abort, all state discarded).
* `validate_b1_vesting` computes in IEEE-754 binary64 (`double`); that
  computation is modelled exactly by integer round-to-nearest-even
  (`roundNat53`, `floorFl53Div` below).
-/

namespace SnaxSystem

/-- `static constexpr time refund_delay = 3*24*3600;` -/
def refund_delay : Nat := 3*24*3600

/-- `static constexpr uint64_t seconds_per_year = 52*7*24*3600;` -/
def seconds_per_year : Nat := 52*7*24*3600

/-- model of the fixed account name `N(snax.stake)` -/
def snax_stake_name : Nat := 1

/-- model of the fixed account name `N(b1)` -/
def b1_name : Nat := 2

/-- model of the fixed account name `N(snax.ram)` -/
def snax_ram_name : Nat := 3

/-- model of the fixed account name `N(snax.ramfee)` -/
def snax_ramfee_name : Nat := 4

/-- `struct user_resources` -/
structure UserResources where
  owner : Nat
  net_weight : Int
  cpu_weight : Int
  ram_bytes : Int
deriving Repr, DecidableEq

/-- `struct delegated_bandwidth` (`from` is a Lean keyword, hence `from_`) -/
structure DelegatedBandwidth where
  from_ : Nat
  to_ : Nat
  net_weight : Int
  cpu_weight : Int
deriving Repr, DecidableEq

/-- `struct refund_request` -/
structure RefundRequest where
  owner : Nat
  request_time : Nat
  net_amount : Int
  cpu_amount : Int
deriving Repr, DecidableEq

/-- escrow bucket row; fields as used by `escrowbw` / `undelegatebw`
(the table type itself is declared in the header that is not among the
sources). -/
structure EscrowRecord where
  owner : Nat
  initial_amount : Int
  amount : Int
  created : Nat
  period_count : Nat
deriving Repr, DecidableEq

/-- voter row; only the `staked` field is touched by this file's source. -/
structure VoterInfo where
  owner : Nat
  staked : Int
deriving Repr, DecidableEq

/-- an external `snax.token::transfer` call (memo strings dropped). -/
structure Transfer where
  sender : Nat
  recipient : Nat
  amount : Int
deriving Repr, DecidableEq

/-- point update of a one-key table. -/
def setMap {α : Type} (m : Nat → α) (k : Nat) (v : α) : Nat → α :=
  fun k' => if k' = k then v else m k'

/-- point update of a (scope, primary key) table. -/
def setTbl {α : Type} (t : Nat → Nat → Option α) (s k : Nat) (v : Option α) :
    Nat → Nat → Option α :=
  fun s' k' => if s' = s ∧ k' = k then v else t s' k'

/-- the persistent contract state touched by `delegate_bandwidth.cpp`.
`min_activated_stake` is a constant declared in the missing header; it is
carried as a state component of unknown value. -/
structure State where
  resources_market_open : Bool
  delband : Nat → Nat → Option DelegatedBandwidth
  userres : Nat → Option UserResources
  refunds : Nat → Option RefundRequest
  voters : Nat → Option VoterInfo
  escrows : Nat → List EscrowRecord
  deferred : Nat → Bool
  total_ram_bytes_reserved : Int
  total_ram_stake : Int
  total_activated_stake : Int
  min_activated_stake : Int

/-! ## Exact model of the binary64 computation in `validate_b1_vesting` -/

/-- number of binary digits, by fuel (enough for anything below `2 ^ 128`). -/
def bitlenAux : Nat → Nat → Nat
  | 0, _ => 0
  | fuel + 1, n => if n = 0 then 0 else bitlenAux fuel (n / 2) + 1

/-- number of binary digits of `n`. -/
def bitlen (n : Nat) : Nat := bitlenAux 128 n

/-- `n / m` rounded to the nearest integer, ties to even. -/
def rheDiv (n m : Nat) : Nat :=
  let q := n / m
  let r := n % m
  if 2 * r > m ∨ (2 * r = m ∧ q % 2 = 1) then q + 1 else q

/-- the nearest binary64 value to the natural number `n`
(round to 53 significant bits, ties to even; exact for our magnitudes,
no overflow). -/
def roundNat53 (n : Nat) : Nat :=
  if bitlen n ≤ 53 then n
  else rheDiv n (2 ^ (bitlen n - 53)) * 2 ^ (bitlen n - 53)

/-- `⌊fl(x / d)⌋` for naturals `x d`: the binary64 quotient of `x` by `d`
(round to nearest, ties to even), truncated to an integer. -/
def floorFl53Div (x d : Nat) : Nat :=
  if x < d ∨ d = 0 then 0
  else
    let L := bitlen (x / d)
    if L ≤ 53 then rheDiv (x * 2 ^ (53 - L)) d / 2 ^ (53 - L)
    else rheDiv x (d * 2 ^ (L - 53)) * 2 ^ (L - 53)

/-- `const int64_t max_claimable = 100'000'000'0000ll;` -/
def max_claimable : Int := 1000000000000

/-- `const int64_t base_time = 1527811200;` -/
def base_time : Int := 1527811200

/-- the binary64 chain computed on the elapsed seconds `e`:
`int64_t( max_claimable * double(e) / (10*seconds_per_year) )`.
`max_claimable` and `10*seconds_per_year = 314496000` convert to `double`
exactly; the product and the quotient are each correctly rounded, and the
cast to `int64_t` truncates toward zero (negative `e` by sign symmetry of
the rounding). -/
def claimableD (e : Int) : Int :=
  if 0 ≤ e then (floorFl53Div (roundNat53 (1000000000000 * e.toNat)) 314496000 : Int)
  else -(floorFl53Div (roundNat53 (1000000000000 * (-e).toNat)) 314496000 : Int)

/-- `void validate_b1_vesting( int64_t stake )`: the assertion
`max_claimable - claimable <= stake` as a boolean (true means the assert
passes). -/
def validate_b1_vesting (now : Nat) (stake : Int) : Bool :=
  if max_claimable - claimableD ((now : Int) - base_time) ≤ stake then true else false

/-! ## changebw -/

/-- the `update stake delegated from "from" to "receiver"` block of
`changebw`: upsert the row at `(scope, key)`, assert both resulting weights
non-negative, erase the row when both are exactly zero. Returns the updated
table and the row value the asserts inspected. -/
def upd_delband (tbl : Nat → Nat → Option DelegatedBandwidth)
    (scope key f t : Nat) (net cpu : Int) :
    Option ((Nat → Nat → Option DelegatedBandwidth) × DelegatedBandwidth) :=
  let row : DelegatedBandwidth :=
    match tbl scope key with
    | none => ⟨f, t, net, cpu⟩
    | some dbo =>
        { dbo with net_weight := dbo.net_weight + net,
                   cpu_weight := dbo.cpu_weight + cpu }
  if 0 ≤ row.net_weight ∧ 0 ≤ row.cpu_weight then
    if row.net_weight = 0 ∧ row.cpu_weight = 0 then
      some (setTbl tbl scope key none, row)
    else some (setTbl tbl scope key (some row), row)
  else none

/-- the `update totals of "receiver"` block of `changebw`: upsert the totals
row at `key`, assert both resulting weights non-negative, erase the row when
net, cpu and ram are all zero. -/
def upd_userres (m : Nat → Option UserResources) (key owner : Nat)
    (net cpu : Int) :
    Option ((Nat → Option UserResources) × UserResources) :=
  let row : UserResources :=
    match m key with
    | none => ⟨owner, net, cpu, 0⟩
    | some tot =>
        { tot with net_weight := tot.net_weight + net,
                   cpu_weight := tot.cpu_weight + cpu }
  if 0 ≤ row.net_weight ∧ 0 ≤ row.cpu_weight then
    if row.net_weight = 0 ∧ row.cpu_weight = 0 ∧ row.ram_bytes = 0 then
      some (setMap m key none, row)
    else some (setMap m key (some row), row)
  else none

/-- the `create refund or update from existing refund` block of `changebw`
(lines 302-362 of the source), for one owner.  `active` is
`is_delegating_to_self || is_undelegating`.  Returns the new refund row for
that owner, `need_deferred_trx`, and the remaining `net_balance` /
`cpu_balance`. -/
def update_refund (req : Option RefundRequest) (owner : Nat) (net cpu : Int)
    (active : Bool) (now : Nat) :
    Option RefundRequest × Bool × Int × Int :=
  if active then
    match req with
    | some r =>
        let rt := if net < 0 ∨ cpu < 0 then now else r.request_time
        let na0 := r.net_amount - net
        let nb := if na0 < 0 then -na0 else 0
        let na := if na0 < 0 then 0 else na0
        let ca0 := r.cpu_amount - cpu
        let cb := if ca0 < 0 then -ca0 else 0
        let ca := if ca0 < 0 then 0 else ca0
        if na = 0 ∧ ca = 0 then (none, false, nb, cb)
        else (some ⟨r.owner, rt, na, ca⟩, true, nb, cb)
    | none =>
        if net < 0 ∨ cpu < 0 then
          let na := if net < 0 then -net else 0
          let nb := if net < 0 then 0 else net
          let ca := if cpu < 0 then -cpu else 0
          let cb := if cpu < 0 then 0 else cpu
          (some ⟨owner, now, na, ca⟩, true, nb, cb)
        else (none, false, net, cpu)
  else (req, false, net, cpu)

/-- `const bool swap = stake_net_delta < asset(0) && stake_cpu_delta < asset(0);` -/
def cbw_swap (net cpu : Int) : Bool := decide (net < 0) && decide (cpu < 0)

/-- `is_delegating_to_self || is_undelegating` (the condition guarding the
refund create/update logic in `changebw`). -/
def cbw_active (transfer : Bool) (from1 receiver : Nat) (net cpu : Int) : Bool :=
  (decide (transfer = false) && decide (from1 = receiver)) ||
    decide (net + cpu < 0)

/-- the voter row after `changebw`'s upsert into `_voters`
(`v.staked += total_update` on an existing row, else emplace with
`v.owner = from`). -/
def cbw_vrow (voters : Nat → Option VoterInfo) (vkey from1 : Nat)
    (total : Int) : VoterInfo :=
  match voters vkey with
  | none => ⟨from1, total⟩
  | some v => { v with staked := v.staked + total }

/-- the `create refund or update from existing refund` section of `changebw`
(skipped entirely when the stake source is `snax.stake`): returns the new
refunds table, the new deferred-task table (`true` = a payout task is
scheduled, `false` = any task was cancelled), and the external stake
transfer of the leftover positive balance. -/
def cbw_refund_block (refunds : Nat → Option RefundRequest)
    (deferred : Nat → Bool) (source from1 : Nat) (net cpu : Int)
    (active : Bool) (now : Nat) :
    (Nat → Option RefundRequest) × (Nat → Bool) × List Transfer :=
  if snax_stake_name ≠ source then
    let u := update_refund (refunds from1) from1 net cpu active now
    (setMap refunds from1 u.1, setMap deferred from1 u.2.1,
      if 0 < u.2.2.1 + u.2.2.2 then
        [⟨source, snax_stake_name, u.2.2.1 + u.2.2.2⟩]
      else [])
  else (refunds, deferred, [])

/-- `void system_contract::changebw(...)`.  `priv` models
`is_privileged(from)`; authorization checks are external.  Returns the new
state and the external token transfers issued, or `none` on abort. -/
def changebw (st : State) (from0 receiver : Nat) (net cpu : Int)
    (transfer : Bool) (now : Nat) (priv : Bool) :
    Option (State × List Transfer) :=
  let swap : Bool := cbw_swap net cpu
  if st.resources_market_open = true ∨ priv = true then
    if net ≠ 0 ∨ cpu ≠ 0 then
      if max net.natAbs cpu.natAbs ≤ (net + cpu).natAbs then
        let source_stake_from := from0
        let from1 := if transfer then receiver else from0
        let dscope := if swap then receiver else from1
        let dkey := if swap then from1 else receiver
        match upd_delband st.delband dscope dkey from1 receiver net cpu with
        | none => none
        | some (delband', _drow) =>
          let tkey := if swap then from1 else receiver
          match upd_userres st.userres tkey receiver net cpu with
          | none => none
          | some (userres', _trow) =>
            let rb := cbw_refund_block st.refunds st.deferred source_stake_from
              from1 net cpu (cbw_active transfer from1 receiver net cpu) now
            let vkey := if swap then receiver else from1
            let vrow := cbw_vrow st.voters vkey from1 (net + cpu)
            if 0 ≤ vrow.staked then
              if from1 = b1_name then
                if validate_b1_vesting now vrow.staked = true then
                  some ({ st with
                          delband := delband'
                          userres := userres'
                          refunds := rb.1
                          deferred := rb.2.1
                          voters := setMap st.voters vkey (some vrow) },
                        rb.2.2)
                else none
              else
                some ({ st with
                        delband := delband'
                        userres := userres'
                        refunds := rb.1
                        deferred := rb.2.1
                        voters := setMap st.voters vkey (some vrow) },
                      rb.2.2)
            else none
      else none
    else none
  else none

/-- `void system_contract::delegatebw(...)`. -/
def delegatebw (st : State) (from0 receiver : Nat) (net cpu : Int)
    (transfer : Bool) (now : Nat) (priv : Bool) :
    Option (State × List Transfer) :=
  if 0 ≤ cpu then
    if 0 ≤ net then
      if 0 < net + cpu then
        if transfer = false ∨ from0 ≠ receiver then
          changebw st from0 receiver net cpu transfer now priv
        else none
      else none
    else none
  else none

/-! ## undelegatebw and the escrow scan -/

/-- the currently-unlockable share of one escrow bucket:
`asset(initial/period_count * (elapsed_periods + 1)) - (initial - amount)`
with `elapsed_periods = (now_seconds - created_seconds) / 15768000`
(C++ truncating division). -/
def bucket_share (r : EscrowRecord) (now : Nat) : Int :=
  (Int.tdiv r.initial_amount (r.period_count : Int)) *
      (Int.tdiv ((now : Int) - (r.created : Int)) 15768000 + 1) -
    (r.initial_amount - r.amount)

/-- the `while (escrow_iter != _escrow_bandwidth.end() && !enough)` loop of
`undelegatebw`: for each bucket owned by `who`, remove the bucket's remaining
amount from the accumulator and add its unlockable share; as soon as the
accumulator strictly exceeds the requested amount `req`, reduce the draw on
the current bucket by the surplus, clamp the accumulator to `req` and stop.
Returns the final accumulator and the updated bucket list. -/
def scanEscrows (who now : Nat) (req : Int) :
    List EscrowRecord → Int → Int × List EscrowRecord
  | [], avail => (avail, [])
  | r :: rest, avail =>
      if r.owner = who then
        let share := bucket_share r now
        let avail1 := avail - r.amount + share
        if avail1 > req then
          (req, { r with amount := r.amount - (share - (avail1 - req)) } :: rest)
        else
          let out := scanEscrows who now req rest avail1
          (out.1, { r with amount := r.amount - share } :: out.2)
      else
        let out := scanEscrows who now req rest avail
        (out.1, r :: out.2)

/-- `void system_contract::undelegatebw(...)`. -/
def undelegatebw (st : State) (from0 receiver : Nat) (net cpu : Int)
    (now : Nat) (priv : Bool) : Option (State × List Transfer) :=
  if 0 ≤ cpu then
    if 0 ≤ net then
      if 0 < cpu + net then
        match st.delband receiver from0 with
        | none => none
        | some row =>
          let scanned := scanEscrows from0 now (net + cpu) (st.escrows receiver)
            (row.net_weight + row.cpu_weight)
          if net + cpu ≤ scanned.1 then
            if st.min_activated_stake ≤ st.total_activated_stake then
              changebw { st with escrows := setMap st.escrows receiver scanned.2 }
                from0 receiver (-net) (-cpu) false now priv
            else none
          else none
      else none
    else none
  else none

/-! ## RAM market actions -/

/-- the `buyram` fee: `( fee.amount + 199 ) / 200` (0.5 percent, round up). -/
def buyram_fee (quant : Int) : Int := Int.tdiv (quant + 199) 200

/-- `void system_contract::buyram(...)`.  The bancor conversion lives in the
missing header; it is passed in as the abstract function `conv` from the
post-fee core amount to RAM bytes (the RAM-market connector state is not
modelled). -/
def buyram (conv : Int → Int) (st : State) (payer receiver : Nat)
    (quant : Int) (priv : Bool) : Option (State × List Transfer) :=
  if 0 < quant then
    if st.resources_market_open = true ∨ priv = true then
      let fee := buyram_fee quant
      let quant_after_fee := quant - fee
      let trs : List Transfer :=
        ⟨payer, snax_ram_name, quant_after_fee⟩ ::
          (if 0 < fee then [⟨payer, snax_ramfee_name, fee⟩] else [])
      let bytes_out := conv quant_after_fee
      if 0 < bytes_out then
        let res : UserResources :=
          match st.userres receiver with
          | none => ⟨receiver, 0, 0, bytes_out⟩
          | some r => { r with ram_bytes := r.ram_bytes + bytes_out }
        some ({ st with
                userres := setMap st.userres receiver (some res)
                total_ram_bytes_reserved := st.total_ram_bytes_reserved + bytes_out
                total_ram_stake := st.total_ram_stake + quant_after_fee },
              trs)
      else none
    else none
  else none

/-- `void system_contract::sellram(...)`.  `conv` is the abstract bancor
conversion from bytes to the core currency. -/
def sellram (conv : Int → Int) (st : State) (account : Nat) (bytes : Int) :
    Option (State × List Transfer) :=
  if 0 < bytes then
    match st.userres account with
    | none => none
    | some res =>
      if bytes ≤ res.ram_bytes then
        let tokens_out := conv bytes
        if 1 < tokens_out then
          let new_stake := st.total_ram_stake - tokens_out
          if 0 ≤ new_stake then
            let fee := Int.tdiv (tokens_out + 199) 200
            some ({ st with
                    userres := setMap st.userres account
                      (some { res with ram_bytes := res.ram_bytes - bytes }),
                    total_ram_bytes_reserved := st.total_ram_bytes_reserved - bytes,
                    total_ram_stake := new_stake },
                  ⟨snax_ram_name, account, tokens_out⟩ ::
                    (if 0 < fee then [⟨account, snax_ramfee_name, fee⟩] else []))
          else none
        else none
      else none
  else none

/-! ## refund -/

/-- `void system_contract::refund( const account_name owner )`. -/
def refund (st : State) (owner : Nat) (now : Nat) :
    Option (State × List Transfer) :=
  match st.refunds owner with
  | none => none
  | some req =>
    if req.request_time + refund_delay ≤ now then
      some ({ st with refunds := setMap st.refunds owner none },
            [⟨snax_stake_name, owner, req.net_amount + req.cpu_amount⟩])
    else none

/-! ## Spec-side definitions (for comparison with the code) -/

/-- The specification's accumulation of the available-to-unstake amount:
starting from the delegation row's weight sum, for *each* escrow bucket owned
by the caller subtract the bucket's remaining amount and add its
currently-unlockable share — with no early stop.  Written from the claim's
words, to be compared with `scanEscrows`. -/
def escrow_avail_spec (who now : Nat) : List EscrowRecord → Int → Int
  | [], avail => avail
  | r :: rest, avail =>
      if r.owner = who then
        escrow_avail_spec who now rest (avail - r.amount + bucket_share r now)
      else escrow_avail_spec who now rest avail

/-- The specification's vesting formula
`claimable = maxClaimable * (now() − 1527811200) / (10 * seconds_per_year)`,
read as C-style (truncating) integer division.  Written from the claim's
words, to be compared with the binary64 chain `claimableD` the code computes. -/
def claimable_spec (e : Int) : Int :=
  Int.tdiv (max_claimable * e) (10 * (seconds_per_year : Int))

/-! ## Concrete states for witnesses and counterexamples -/

/-- an empty ledger with the market open and the activation threshold met. -/
def st0 : State where
  resources_market_open := true
  delband := fun _ _ => none
  userres := fun _ => none
  refunds := fun _ => none
  voters := fun _ => none
  escrows := fun _ => []
  deferred := fun _ => false
  total_ram_bytes_reserved := 0
  total_ram_stake := 0
  total_activated_stake := 1
  min_activated_stake := 0

/-- a ledger where account 10 has delegated to account 11 (mirror row in
receiver scope as `undelegatebw` reads it), with two escrow buckets owned by
10 in 11's scope: one fully vested (1 period), one fresh (4 periods). -/
def st1 : State where
  resources_market_open := true
  delband := fun s k => if s = 11 ∧ k = 10 then some ⟨10, 11, 60, 40⟩ else none
  userres := fun a => if a = 10 then some ⟨10, 100, 100, 0⟩ else none
  refunds := fun _ => none
  voters := fun a => if a = 11 then some ⟨11, 1000⟩ else none
  escrows := fun s =>
    if s = 11 then
      [⟨10, 50, 50, 1600000000, 1⟩, ⟨10, 80, 80, 1600000000, 4⟩]
    else []
  deferred := fun _ => false
  total_ram_bytes_reserved := 0
  total_ram_stake := 0
  total_activated_stake := 1
  min_activated_stake := 0

/-- a ledger where the reserved genesis account `b1` (modelled as account 2)
holds no stake yet. -/
def st2 : State where
  resources_market_open := true
  delband := fun _ _ => none
  userres := fun _ => none
  refunds := fun _ => none
  voters := fun a => if a = 2 then some ⟨2, 0⟩ else none
  escrows := fun _ => []
  deferred := fun _ => false
  total_ram_bytes_reserved := 0
  total_ram_stake := 0
  total_activated_stake := 1
  min_activated_stake := 0

/-- a ledger where `b1` (account 2) already has voter stake exactly at the
boundary where the binary64 vesting computation and the exact integer
formula disagree. -/
def st3 : State where
  resources_market_open := true
  delband := fun _ _ => none
  userres := fun _ => none
  refunds := fun _ => none
  voters := fun a => if a = 2 then some ⟨2, 1117320312498⟩ else none
  escrows := fun _ => []
  deferred := fun _ => false
  total_ram_bytes_reserved := 0
  total_ram_stake := 0
  total_activated_stake := 1
  min_activated_stake := 0

/-- a ledger where account 10 owns 500 bytes of RAM and the global RAM stake
counter holds 1000. -/
def st4 : State where
  resources_market_open := true
  delband := fun _ _ => none
  userres := fun a => if a = 10 then some ⟨10, 0, 0, 500⟩ else none
  refunds := fun _ => none
  voters := fun _ => none
  escrows := fun _ => []
  deferred := fun _ => false
  total_ram_bytes_reserved := 500
  total_ram_stake := 1000
  total_activated_stake := 1
  min_activated_stake := 0

/-- a ledger where account 10 has a pending refund requested at time 100. -/
def st5 : State where
  resources_market_open := true
  delband := fun _ _ => none
  userres := fun _ => none
  refunds := fun a => if a = 10 then some ⟨10, 100, 7, 8⟩ else none
  voters := fun _ => none
  escrows := fun _ => []
  deferred := fun _ => false
  total_ram_bytes_reserved := 0
  total_ram_stake := 0
  total_activated_stake := 1
  min_activated_stake := 0

/-- the identity conversion, used to instantiate the abstract bancor
converter in concrete runs. -/
def convId : Int → Int := fun x => x

/-- the result state of selling 300 bytes from `st4`. -/
def st4' : State := { st4 with
  userres := setMap st4.userres 10 (some ⟨10, 0, 0, 200⟩)
  total_ram_bytes_reserved := 200
  total_ram_stake := 700 }

/-- the transfer trace of selling 300 bytes from `st4`. -/
def tr4 : List Transfer := [⟨3, 10, 300⟩, ⟨10, 4, 2⟩]

/-- the result state of account 10 buying RAM for 400 units for account 11
from `st0` (identity conversion). -/
def st0b : State := { st0 with
  userres := setMap st0.userres 11 (some ⟨11, 0, 0, 398⟩)
  total_ram_bytes_reserved := 398
  total_ram_stake := 398 }

/-- the transfer trace of that purchase. -/
def tr0b : List Transfer := [⟨10, 3, 398⟩, ⟨10, 4, 2⟩]

/-- the result state of account 10 delegating (5, 5) to account 11 from
`st0`. -/
def st0c : State := { st0 with
  delband := setTbl st0.delband 10 11 (some ⟨10, 11, 5, 5⟩)
  userres := setMap st0.userres 11 (some ⟨11, 5, 5, 0⟩)
  refunds := setMap st0.refunds 10 none
  deferred := setMap st0.deferred 10 false
  voters := setMap st0.voters 10 (some ⟨10, 10⟩) }

/-- the transfer trace of that delegation. -/
def tr0c : List Transfer := [⟨10, 1, 10⟩]

/-- the result state of `b1` (account 2) delegating `10^12` to account 12
from `st2`. -/
def st2' : State := { st2 with
  delband := setTbl st2.delband 2 12 (some ⟨2, 12, 1000000000000, 0⟩)
  userres := setMap st2.userres 12 (some ⟨12, 1000000000000, 0, 0⟩)
  refunds := setMap st2.refunds 2 none
  deferred := setMap st2.deferred 2 false
  voters := setMap st2.voters 2 (some ⟨2, 1000000000000⟩) }

/-- the transfer trace of that delegation. -/
def tr2 : List Transfer := [⟨2, 1, 1000000000000⟩]

/-- both amounts of every refund row are non-negative. -/
def refundInv (m : Nat → Option RefundRequest) : Prop :=
  ∀ o rr, m o = some rr → 0 ≤ rr.net_amount ∧ 0 ≤ rr.cpu_amount

/-- no delegation row has both weights zero. -/
def delbandInv (t : Nat → Nat → Option DelegatedBandwidth) : Prop :=
  ∀ s k d, t s k = some d → ¬(d.net_weight = 0 ∧ d.cpu_weight = 0)

/-- no totals row has zero weights and zero RAM simultaneously. -/
def userresInv (m : Nat → Option UserResources) : Prop :=
  ∀ a u, m a = some u →
    ¬(u.net_weight = 0 ∧ u.cpu_weight = 0 ∧ u.ram_bytes = 0)

/-! ## Helper lemmas -/

/-- `update_refund` only ever stores non-negative refund amounts (given the
stored row was non-negative, which matters only for the untouched pass-through
case). -/
theorem update_refund_nonneg (req : Option RefundRequest) (owner : Nat)
    (net cpu : Int) (active : Bool) (now : Nat)
    (hin : ∀ rr, req = some rr → 0 ≤ rr.net_amount ∧ 0 ≤ rr.cpu_amount) :
    ∀ rr', (update_refund req owner net cpu active now).1 = some rr' →
      0 ≤ rr'.net_amount ∧ 0 ≤ rr'.cpu_amount := by
  intro rr' h
  simp only [update_refund] at h
  repeat' split at h
  all_goals try exact Option.noConfusion h
  all_goals try exact hin rr' h
  all_goals (injection h with h; subst h; refine ⟨?_, ?_⟩ <;> dsimp only <;> omega)

/-- a successful `upd_delband` preserves the no-zero-row invariant and
inspected a row with non-negative weights. -/
theorem upd_delband_inv (tbl : Nat → Nat → Option DelegatedBandwidth)
    (scope key f t : Nat) (net cpu : Int) (d)
    (hd : upd_delband tbl scope key f t net cpu = some d)
    (hinv : delbandInv tbl) :
    delbandInv d.1 ∧ 0 ≤ d.2.net_weight ∧ 0 ≤ d.2.cpu_weight := by
  simp only [upd_delband] at hd
  split at hd
  · rename_i hpos
    split at hd
    · rename_i hzero
      injection hd with hd
      subst hd
      refine ⟨?_, hpos.1, hpos.2⟩
      intro s k dd h
      simp only [setTbl] at h
      split at h
      · exact Option.noConfusion h
      · exact hinv s k dd h
    · rename_i hzero
      injection hd with hd
      subst hd
      refine ⟨?_, hpos.1, hpos.2⟩
      intro s k dd h
      simp only [setTbl] at h
      split at h
      · injection h with h
        subst h
        exact hzero
      · exact hinv s k dd h
  · exact Option.noConfusion hd

/-- a successful `upd_userres` preserves the no-zero-row invariant and
inspected a row with non-negative weights. -/
theorem upd_userres_inv (m : Nat → Option UserResources) (key owner : Nat)
    (net cpu : Int) (u)
    (hu : upd_userres m key owner net cpu = some u)
    (hinv : userresInv m) :
    userresInv u.1 ∧ 0 ≤ u.2.net_weight ∧ 0 ≤ u.2.cpu_weight := by
  simp only [upd_userres] at hu
  split at hu
  · rename_i hpos
    split at hu
    · rename_i hzero
      injection hu with hu
      subst hu
      refine ⟨?_, hpos.1, hpos.2⟩
      intro a uu h
      simp only [setMap] at h
      split at h
      · exact Option.noConfusion h
      · exact hinv a uu h
    · rename_i hzero
      injection hu with hu
      subst hu
      refine ⟨?_, hpos.1, hpos.2⟩
      intro a uu h
      simp only [setMap] at h
      split at h
      · injection h with h
        subst h
        exact hzero
      · exact hinv a uu h
  · exact Option.noConfusion hu

/-- a successful `upd_delband` leaves every other (scope, key) unchanged. -/
theorem upd_delband_frame (tbl : Nat → Nat → Option DelegatedBandwidth)
    (scope key f t : Nat) (net cpu : Int) (d)
    (hd : upd_delband tbl scope key f t net cpu = some d) :
    ∀ s k, ¬(s = scope ∧ k = key) → d.1 s k = tbl s k := by
  simp only [upd_delband] at hd
  split at hd
  · split at hd <;>
      (injection hd with hd; subst hd; intro s k hn;
        simp only [setTbl]; rw [if_neg hn])
  · exact Option.noConfusion hd

/-- Dissection of a successful `changebw`: the delegation-row update and the
totals update succeeded, the result state is the input state with the five
touched tables replaced, and the voter-stake assert (plus, for `b1`, the
vesting assert) passed.  The key equations are taken as hypotheses so that
call sites can pass `rfl`. -/
theorem changebw_dissect (st : State) (from0 receiver : Nat) (net cpu : Int)
    (transfer : Bool) (now : Nat) (priv : Bool) (p : State × List Transfer)
    (from1 dscope dkey tkey vkey : Nat)
    (hf : from1 = if transfer then receiver else from0)
    (hds : dscope = if cbw_swap net cpu then receiver else from1)
    (hdk : dkey = if cbw_swap net cpu then from1 else receiver)
    (htk : tkey = if cbw_swap net cpu then from1 else receiver)
    (hvk : vkey = if cbw_swap net cpu then receiver else from1)
    (h : changebw st from0 receiver net cpu transfer now priv = some p) :
    ∃ d u,
      upd_delband st.delband dscope dkey from1 receiver net cpu = some d ∧
      upd_userres st.userres tkey receiver net cpu = some u ∧
      p.1 = { st with
              delband := d.1
              userres := u.1
              refunds := (cbw_refund_block st.refunds st.deferred from0 from1
                net cpu (cbw_active transfer from1 receiver net cpu) now).1
              deferred := (cbw_refund_block st.refunds st.deferred from0 from1
                net cpu (cbw_active transfer from1 receiver net cpu) now).2.1
              voters := setMap st.voters vkey
                (some (cbw_vrow st.voters vkey from1 (net + cpu))) } ∧
      p.2 = (cbw_refund_block st.refunds st.deferred from0 from1 net cpu
        (cbw_active transfer from1 receiver net cpu) now).2.2 ∧
      0 ≤ (cbw_vrow st.voters vkey from1 (net + cpu)).staked ∧
      (from1 = b1_name →
        validate_b1_vesting now
          (cbw_vrow st.voters vkey from1 (net + cpu)).staked = true) := by
  have e1 : tkey = dkey := htk.trans hdk.symm
  have e2 : vkey = dscope := hvk.trans hds.symm
  subst e1
  subst e2
  simp only [changebw] at h
  rw [← hf, ← hds, ← hdk] at h
  split at h
  · split at h
    · split at h
      · split at h
        · exact Option.noConfusion h
        · rename_i delband' _drow hd
          split at h
          · exact Option.noConfusion h
          · rename_i userres' _trow hu
            split at h
            · rename_i hstk
              split at h
              · rename_i hb1
                split at h
                · rename_i hval
                  injection h with h
                  subst h
                  exact ⟨(delband', _drow), (userres', _trow), hd, hu, rfl,
                    rfl, hstk, fun _ => hval⟩
                · exact Option.noConfusion h
              · rename_i hb1
                injection h with h
                subst h
                exact ⟨(delband', _drow), (userres', _trow), hd, hu, rfl,
                  rfl, hstk, fun hc => absurd hc hb1⟩
            · exact Option.noConfusion h
      · exact Option.noConfusion h
    · exact Option.noConfusion h
  · exact Option.noConfusion h

/-- the accumulator of `scanEscrows` ends either clamped at the requested
amount (early stop) or equal to the full no-stop accumulation of
`escrow_avail_spec`. -/
theorem scanEscrows_clamped_or_full (who now : Nat) (req : Int)
    (l : List EscrowRecord) :
    ∀ a : Int, (scanEscrows who now req l a).1 = req ∨
      (scanEscrows who now req l a).1 = escrow_avail_spec who now l a := by
  induction l with
  | nil => intro a; exact Or.inr rfl
  | cons r rest ih =>
    intro a
    simp only [scanEscrows, escrow_avail_spec]
    by_cases hc : r.owner = who
    · simp only [if_pos hc]
      split
      · exact Or.inl rfl
      · simpa using ih _
    · simp only [if_neg hc]
      simpa using ih _

/-! ## Claim theorems -/

/-- C1 (amended): `undelegatebw` accumulates the available-to-unstake amount
per escrow bucket exactly as the claim's formula says, except that the scan
stops early, clamping the accumulator to the requested amount as soon as it
strictly exceeds it — so the gate compares the request against the clamped
scan result, which equals the claim's full-sum accumulation only when no
early stop happened; the operation aborts whenever the request exceeds that
scan result. -/
theorem C1_escrow_availability (st : State) (from0 receiver : Nat)
    (net cpu : Int) (now : Nat) (priv : Bool) (row : DelegatedBandwidth)
    (hrow : st.delband receiver from0 = some row) :
    (∀ p, undelegatebw st from0 receiver net cpu now priv = some p →
      net + cpu ≤ (scanEscrows from0 now (net + cpu) (st.escrows receiver)
        (row.net_weight + row.cpu_weight)).1) ∧
    (¬ net + cpu ≤ (scanEscrows from0 now (net + cpu) (st.escrows receiver)
        (row.net_weight + row.cpu_weight)).1 →
      undelegatebw st from0 receiver net cpu now priv = none) ∧
    ((scanEscrows from0 now (net + cpu) (st.escrows receiver)
        (row.net_weight + row.cpu_weight)).1 = net + cpu ∨
      (scanEscrows from0 now (net + cpu) (st.escrows receiver)
        (row.net_weight + row.cpu_weight)).1 =
        escrow_avail_spec from0 now (st.escrows receiver)
          (row.net_weight + row.cpu_weight)) := by
  have h1 : ∀ p, undelegatebw st from0 receiver net cpu now priv = some p →
      net + cpu ≤ (scanEscrows from0 now (net + cpu) (st.escrows receiver)
        (row.net_weight + row.cpu_weight)).1 := by
    intro p h
    simp only [undelegatebw, hrow] at h
    split at h
    · split at h
      · split at h
        · split at h
          · rename_i hgate
            exact hgate
          · exact Option.noConfusion h
        · exact Option.noConfusion h
      · exact Option.noConfusion h
    · exact Option.noConfusion h
  refine ⟨h1, ?_, scanEscrows_clamped_or_full _ _ _ _ _⟩
  intro hgate
  cases hres : undelegatebw st from0 receiver net cpu now priv with
  | none => rfl
  | some p => exact absurd (h1 p hres) hgate

/-- C1 witness: in `st1` the scan for a request of 90 against starting
weight 100 stops early and clamps at the requested amount. -/
theorem C1_escrow_availability_witness :
    (scanEscrows 10 1600000000 (50 + 40) (st1.escrows 11)
        ((60 : Int) + 40)).1 = 50 + 40 ∨
    (scanEscrows 10 1600000000 (50 + 40) (st1.escrows 11)
        ((60 : Int) + 40)).1 =
      escrow_avail_spec 10 1600000000 (st1.escrows 11) ((60 : Int) + 40) :=
  (C1_escrow_availability st1 10 11 50 40 1600000000 true ⟨10, 11, 60, 40⟩
    rfl).2.2

/-- C1 counterexample: in `st1` a request of 90 (net 50 + cpu 40) succeeds —
the scan stops after the first (fully vested) bucket — even though the
claim's full accumulation over every bucket owned by the caller yields only
40 < 90, which by the claim's wording should abort the operation. -/
theorem C1_counterexample :
    (undelegatebw st1 10 11 50 40 1600000000 true).isSome = true ∧
    escrow_avail_spec 10 1600000000 (st1.escrows 11) (60 + 40) < 50 + 40 :=
  ⟨rfl, by decide⟩

/-- C2: `changebw` aborts unless at least one of the two deltas is non-zero
and `|netDelta + cpuDelta| ≥ max(|netDelta|, |cpuDelta|)`; in particular for
every pair of deltas with strictly opposite signs the operation fails (with
no state change, since the whole operation is the `none` result). -/
theorem C2_changebw_delta_guards (st : State) (from0 receiver : Nat)
    (net cpu : Int) (transfer : Bool) (now : Nat) (priv : Bool) :
    ((net = 0 ∧ cpu = 0) ∨ ¬ max net.natAbs cpu.natAbs ≤ (net + cpu).natAbs →
      changebw st from0 receiver net cpu transfer now priv = none) ∧
    ((0 < net ∧ cpu < 0) ∨ (net < 0 ∧ 0 < cpu) →
      changebw st from0 receiver net cpu transfer now priv = none) := by
  have key : (net = 0 ∧ cpu = 0) ∨
      ¬ max net.natAbs cpu.natAbs ≤ (net + cpu).natAbs →
      changebw st from0 receiver net cpu transfer now priv = none := by
    intro hbad
    simp only [changebw]
    split
    · split
      · split
        · rename_i h2 h3
          rcases hbad with ⟨hn, hc⟩ | hmax
          · exact absurd h2 (by omega)
          · exact absurd h3 hmax
        · rfl
      · rfl
    · rfl
  refine ⟨key, fun hopp => key (Or.inr ?_)⟩
  rw [Nat.max_le]
  omega

/-- C2 witness: staking `net = 1, cpu = -1` fails. -/
theorem C2_changebw_delta_guards_witness :
    changebw st0 10 11 1 (-1) false 1000 true = none :=
  (C2_changebw_delta_guards st0 10 11 1 (-1) false 1000 true).2
    (Or.inl (by norm_num))

/-- C4: a successful `buyram` charged the fee `⌈quant/200⌉` (computed as
`(quant + 199) / 200`), converted exactly `quant − fee`, and obtained a
strictly positive byte amount; and whenever the conversion of `quant − fee`
is not strictly positive, `buyram` aborts. -/
theorem C4_buyram_fee_and_positivity (conv : Int → Int) (st : State)
    (payer receiver : Nat) (quant : Int) (priv : Bool) :
    (∀ p, buyram conv st payer receiver quant priv = some p →
      quant ≤ 200 * buyram_fee quant ∧
      200 * buyram_fee quant < quant + 200 ∧
      0 < conv (quant - buyram_fee quant) ∧
      p.2 = ⟨payer, snax_ram_name, quant - buyram_fee quant⟩ ::
        (if 0 < buyram_fee quant then
          [⟨payer, snax_ramfee_name, buyram_fee quant⟩] else [])) ∧
    (0 < quant → conv (quant - buyram_fee quant) ≤ 0 →
      buyram conv st payer receiver quant priv = none) := by
  constructor
  · intro p h
    simp only [buyram] at h
    split at h
    · rename_i hq
      split at h
      · split at h
        · rename_i hb
          cases h
          have hfee : buyram_fee quant = (quant + 199) / 200 :=
            Int.tdiv_eq_ediv (by omega) (by norm_num)
          exact ⟨by rw [hfee]; omega, by rw [hfee]; omega, hb, rfl⟩
        · simp at h
      · simp at h
    · simp at h
  · intro hq hc
    simp only [buyram]
    rw [if_pos hq]
    split
    · rw [if_neg (by omega : ¬ 0 < conv (quant - buyram_fee quant))]
    · rfl

/-- C4 witness: buying with 400 units against the identity conversion. -/
theorem C4_buyram_fee_and_positivity_witness :
    (400 : Int) ≤ 200 * buyram_fee 400 ∧
    200 * buyram_fee 400 < 400 + 200 ∧
    0 < convId (400 - buyram_fee 400) ∧
    (st0b, tr0b).2 = (⟨10, snax_ram_name, 400 - buyram_fee 400⟩ : Transfer) ::
      (if 0 < buyram_fee 400 then
        [⟨10, snax_ramfee_name, buyram_fee 400⟩] else []) :=
  (C4_buyram_fee_and_positivity convId st0 10 11 400 true).1 (st0b, tr0b) rfl

/-- C5: a successful `sellram` had a strictly positive byte count, an
existing resource row with at least that many bytes, a conversion result
strictly greater than 1; and it transferred the full output to the account
and charged the fee `⌈tokens_out/200⌉ = (tokens_out + 199) / 200` on the
output amount. -/
theorem C5_sellram (conv : Int → Int) (st : State) (account : Nat)
    (bytes : Int) :
    ∀ p, sellram conv st account bytes = some p →
      0 < bytes ∧
      (∃ res, st.userres account = some res ∧ bytes ≤ res.ram_bytes) ∧
      1 < conv bytes ∧
      p.2 = [⟨snax_ram_name, account, conv bytes⟩,
             ⟨account, snax_ramfee_name, Int.tdiv (conv bytes + 199) 200⟩] ∧
      conv bytes ≤ 200 * Int.tdiv (conv bytes + 199) 200 ∧
      200 * Int.tdiv (conv bytes + 199) 200 < conv bytes + 200 := by
  intro p h
  simp only [sellram] at h
  split at h
  · rename_i hb
    split at h
    · exact Option.noConfusion h
    · rename_i res hres
      split at h
      · rename_i hquota
        split at h
        · rename_i ht
          split at h
          · rename_i hstk
            injection h with h
            subst h
            have hdiv : Int.tdiv (conv bytes + 199) 200 =
                (conv bytes + 199) / 200 :=
              Int.tdiv_eq_ediv (by omega) (by norm_num)
            refine ⟨hb, ⟨res, hres, hquota⟩, ht, ?_,
              by rw [hdiv]; omega, by rw [hdiv]; omega⟩
            rw [if_pos
              (by rw [hdiv]; omega : (0:Int) < Int.tdiv (conv bytes + 199) 200)]
          · exact Option.noConfusion h
        · exact Option.noConfusion h
      · exact Option.noConfusion h
  · exact Option.noConfusion h

/-- C5 witness: selling 300 bytes from `st4` against the identity
conversion. -/
theorem C5_sellram_witness :
    0 < (300 : Int) ∧
    (∃ res, st4.userres 10 = some res ∧ 300 ≤ res.ram_bytes) ∧
    1 < convId 300 ∧
    (st4', tr4).2 = [⟨snax_ram_name, 10, convId 300⟩,
                     ⟨10, snax_ramfee_name, Int.tdiv (convId 300 + 199) 200⟩] ∧
    convId 300 ≤ 200 * Int.tdiv (convId 300 + 199) 200 ∧
    200 * Int.tdiv (convId 300 + 199) 200 < convId 300 + 200 :=
  C5_sellram convId st4 10 300 (st4', tr4) rfl

/-- C6: `refund(owner)` aborts exactly when no refund row exists or
`request_time + refund_delay > now` (with `refund_delay = 259200` seconds
= 3 days); on success it transfers `net_amount + cpu_amount` from the
stake-custody account to the owner and deletes the refund row. -/
theorem C6_refund (st : State) (owner : Nat) (now : Nat) :
    refund_delay = 259200 ∧
    (st.refunds owner = none → refund st owner now = none) ∧
    (∀ r, st.refunds owner = some r → now < r.request_time + refund_delay →
      refund st owner now = none) ∧
    (∀ r, st.refunds owner = some r → r.request_time + refund_delay ≤ now →
      ∃ st', refund st owner now =
          some (st', [⟨snax_stake_name, owner, r.net_amount + r.cpu_amount⟩]) ∧
        st'.refunds owner = none) := by
  refine ⟨rfl, ?_, ?_, ?_⟩
  · intro hnone
    simp only [refund, hnone]
  · intro r hr hlt
    have hneg : ¬ (r.request_time + refund_delay ≤ now) := by omega
    simp only [refund, hr]
    rw [if_neg hneg]
  · intro r hr hle
    simp only [refund, hr]
    rw [if_pos hle]
    exact ⟨_, rfl, by simp [setMap]⟩

/-- C6 witness: the pending refund of `st5` is claimable at time 300000 and
pays out `7 + 8`. -/
theorem C6_refund_witness :
    ∃ st', refund st5 10 300000 =
        some (st', [⟨snax_stake_name, 10, (7 : Int) + 8⟩]) ∧
      st'.refunds 10 = none :=
  (C6_refund st5 10 300000).2.2.2 ⟨10, 100, 7, 8⟩ rfl (by decide)

/-- C3: `changebw` keeps every refund row's amounts non-negative; and when
an existing refund row is updated (the undelegating / self-delegating path),
the row is erased — and the deferred payout task left cancelled rather than
rescheduled — exactly when both new amounts reach zero, and the row's
`request_time` is reset to `now` exactly when the net or cpu delta is
negative. -/
theorem C3_refund_invariants :
    (∀ st from0 receiver net cpu transfer now priv p,
      refundInv st.refunds →
      changebw st from0 receiver net cpu transfer now priv = some p →
      refundInv p.1.refunds) ∧
    (∀ (rr : RefundRequest) (owner : Nat) (net cpu : Int) (now : Nat),
      0 ≤ rr.net_amount → 0 ≤ rr.cpu_amount →
      ((update_refund (some rr) owner net cpu true now).1 = none ↔
        rr.net_amount ≤ net ∧ rr.cpu_amount ≤ cpu) ∧
      ((update_refund (some rr) owner net cpu true now).2.1 = false ↔
        (update_refund (some rr) owner net cpu true now).1 = none) ∧
      (∀ rr', (update_refund (some rr) owner net cpu true now).1 = some rr' →
        rr'.request_time =
          if net < 0 ∨ cpu < 0 then now else rr.request_time)) := by
  constructor
  · intro st from0 receiver net cpu transfer now priv p hin hs
    obtain ⟨d, u, hd, hu, hp1, hp2, hstk, hb1⟩ :=
      changebw_dissect st from0 receiver net cpu transfer now priv p _ _ _ _ _
        rfl rfl rfl rfl rfl hs
    rw [hp1]
    dsimp only
    simp only [cbw_refund_block]
    by_cases hsrc : snax_stake_name ≠ from0
    · rw [if_pos hsrc]
      intro o rr ho
      simp only [setMap] at ho
      by_cases hoF : o = (if transfer = true then receiver else from0)
      · rw [if_pos hoF] at ho
        exact update_refund_nonneg _ _ _ _ _ _
          (fun rr2 h2 => hin _ rr2 h2) rr ho
      · rw [if_neg hoF] at ho
        exact hin o rr ho
    · rw [if_neg hsrc]
      exact hin
  · intro rr owner net cpu now hn hc
    refine ⟨?_, ?_, ?_⟩
    · simp only [update_refund, eq_self_iff_true, if_true]
      split_ifs <;> simp <;> omega
    · simp only [update_refund, eq_self_iff_true, if_true]
      split_ifs <;> simp
    · intro rr' h
      simp only [update_refund, eq_self_iff_true, if_true] at h ⊢
      split_ifs at h ⊢ <;>
        first
          | exact Option.noConfusion h
          | (injection h with h; subst h; rfl)

/-- C3 witness: delegating exactly the pending amounts back erases the
refund row. -/
theorem C3_refund_invariants_witness :
    (update_refund (some ⟨10, 5, 3, 4⟩) 10 3 4 true 99).1 = none ↔
      (3 : Int) ≤ 3 ∧ (4 : Int) ≤ 4 :=
  ((C3_refund_invariants).2 ⟨10, 5, 3, 4⟩ 10 3 4 99 (by norm_num)
    (by norm_num)).1

/-- C7: after a successful `changebw`, no delegation row with both weights
zero and no totals row with zero weights and zero RAM remains (given the
tables satisfied this before), and the updated rows were asserted
non-negative before the deletion check. -/
theorem C7_no_zero_rows (st : State) (from0 receiver : Nat) (net cpu : Int)
    (transfer : Bool) (now : Nat) (priv : Bool) (p : State × List Transfer)
    (hdinv : delbandInv st.delband) (huinv : userresInv st.userres)
    (hs : changebw st from0 receiver net cpu transfer now priv = some p) :
    delbandInv p.1.delband ∧ userresInv p.1.userres ∧
    (∃ d, upd_delband st.delband
        (if cbw_swap net cpu then receiver
          else if transfer then receiver else from0)
        (if cbw_swap net cpu then (if transfer then receiver else from0)
          else receiver)
        (if transfer then receiver else from0) receiver net cpu = some d ∧
      0 ≤ d.2.net_weight ∧ 0 ≤ d.2.cpu_weight) ∧
    (∃ u, upd_userres st.userres
        (if cbw_swap net cpu then (if transfer then receiver else from0)
          else receiver)
        receiver net cpu = some u ∧
      0 ≤ u.2.net_weight ∧ 0 ≤ u.2.cpu_weight) := by
  obtain ⟨d, u, hd, hu, hp1, hp2, hstk, hb1⟩ :=
    changebw_dissect st from0 receiver net cpu transfer now priv p _ _ _ _ _
      rfl rfl rfl rfl rfl hs
  obtain ⟨hdi, hdn, hdc⟩ := upd_delband_inv _ _ _ _ _ _ _ _ hd hdinv
  obtain ⟨hui, hun, huc⟩ := upd_userres_inv _ _ _ _ _ _ hu huinv
  refine ⟨?_, ?_, ⟨d, hd, hdn, hdc⟩, ⟨u, hu, hun, huc⟩⟩
  · rw [hp1]
    exact hdi
  · rw [hp1]
    exact hui

/-- C7 witness: delegating (5, 5) from account 10 to 11 on the empty ledger
leaves no zero rows. -/
theorem C7_no_zero_rows_witness :
    delbandInv st0c.delband ∧ userresInv st0c.userres ∧
    (∃ d, upd_delband st0.delband 10 11 10 11 5 5 = some d ∧
      0 ≤ d.2.net_weight ∧ 0 ≤ d.2.cpu_weight) ∧
    (∃ u, upd_userres st0.userres 11 11 5 5 = some u ∧
      0 ≤ u.2.net_weight ∧ 0 ≤ u.2.cpu_weight) :=
  C7_no_zero_rows st0 10 11 5 5 false 1000 true (st0c, tr0c)
    (fun _ _ _ h => Option.noConfusion h)
    (fun _ _ h => Option.noConfusion h) rfl

/-- C8 (amended): the `b1` vesting guard of `changebw` compares
`max_claimable - claimable` against the resulting staked balance, where
`claimable` is computed in IEEE-754 binary64 (`claimableD`), not by exact
integer division; every successful `changebw` whose effective `from` account
is `b1` satisfied that binary64 guard. -/
theorem C8_b1_vesting_guard :
    (∀ (now : Nat) (stake : Int), validate_b1_vesting now stake = true ↔
      max_claimable - claimableD ((now : Int) - base_time) ≤ stake) ∧
    (∀ st from0 receiver net cpu transfer now priv p,
      changebw st from0 receiver net cpu transfer now priv = some p →
      (if transfer then receiver else from0) = b1_name →
      validate_b1_vesting now
        (cbw_vrow st.voters
          (if cbw_swap net cpu then receiver
            else if transfer then receiver else from0)
          (if transfer then receiver else from0) (net + cpu)).staked
        = true) := by
  constructor
  · intro now stake
    simp only [validate_b1_vesting]
    split
    · rename_i hcond
      simp [hcond]
    · rename_i hcond
      simp [hcond]
  · intro st from0 receiver net cpu transfer now priv p hs hb1
    obtain ⟨d, u, hd, hu, hp1, hp2, hstk, hval⟩ :=
      changebw_dissect st from0 receiver net cpu transfer now priv p _ _ _ _ _
        rfl rfl rfl rfl rfl hs
    exact hval hb1

/-- C8 witness: `b1` staking `10^12` at `now = base_time` passes the guard. -/
theorem C8_b1_vesting_guard_witness :
    validate_b1_vesting 1527811200
      (cbw_vrow st2.voters 2 2 (1000000000000 + 0)).staked = true :=
  (C8_b1_vesting_guard).2 st2 2 12 1000000000000 0 false 1527811200 true
    (st2', tr2) rfl rfl

/-- C8 counterexample: at `now = 1490914431` (elapsed −36896769 seconds, an
exact multiple of the divisor) the binary64 chain rounds the product
`10^12 · 36896769` down, so `claimableD` is one unit above the claim's exact
integer formula; with `b1`'s staked balance at 1117320312499 the operation
succeeds although `max_claimable − claimable_spec = 1117320312500` exceeds
the resulting staked balance, i.e. the claim's abort condition is violated. -/
theorem C8_counterexample :
    (changebw st3 2 13 1 0 false 1490914431 true).isSome = true ∧
    (changebw st3 2 13 1 0 false 1490914431 true).map (fun p => p.1.voters 2)
      = some (some ⟨2, 1117320312499⟩) ∧
    ¬ (max_claimable - claimable_spec ((1490914431 : Int) - base_time)
        ≤ 1117320312499) :=
  ⟨rfl, rfl, by decide⟩

/-- C9: `undelegatebw` consults the delegation table at scope `receiver`
with primary key `from` — aborting with no state change when that row is
absent — which is the reverse orientation of the row a (non-transfer)
`delegatebw` writes: that one touches only scope `from`, key `receiver`. -/
theorem C9_undelegate_reverse_orientation (st : State) (from0 receiver : Nat)
    (net cpu : Int) (now : Nat) (priv : Bool) :
    (st.delband receiver from0 = none →
      undelegatebw st from0 receiver net cpu now priv = none) ∧
    (∀ p, delegatebw st from0 receiver net cpu false now priv = some p →
      ∀ s k, ¬(s = from0 ∧ k = receiver) → p.1.delband s k = st.delband s k) := by
  constructor
  · intro hnone
    simp [undelegatebw, hnone]
  · intro p h s k hne
    simp only [delegatebw] at h
    split at h
    · rename_i hcpu
      split at h
      · rename_i hnet
        split at h
        · split at h
          · have hnn : ¬ (net < 0) := by omega
            have hswap : cbw_swap net cpu = false := by
              simp [cbw_swap, hnn]
            obtain ⟨d, u, hd, hu, hp1, hp2, hstk, hb1⟩ :=
              changebw_dissect st from0 receiver net cpu false now priv p
                from0 from0 receiver receiver from0 (by simp)
                (by rw [hswap]; simp) (by rw [hswap]; simp)
                (by rw [hswap]; simp) (by rw [hswap]; simp) h
            rw [hp1]
            dsimp only
            exact upd_delband_frame _ _ _ _ _ _ _ _ hd s k hne
          · exact Option.noConfusion h
        · exact Option.noConfusion h
      · exact Option.noConfusion h
    · exact Option.noConfusion h

/-- C9 witness: undelegating on an empty ledger aborts. -/
theorem C9_undelegate_reverse_orientation_witness :
    undelegatebw st0 10 11 5 5 1000 true = none :=
  (C9_undelegate_reverse_orientation st0 10 11 5 5 1000 true).1 rfl

/-- C10: for every `quant ≥ 1` the buyram fee `(quant + 199) / 200`
satisfies `1 ≤ fee ≤ quant`, with `fee = quant` exactly when `quant = 1`;
at `quant = 1` the post-fee amount sent to conversion is `0`, the whole
input being consumed by the fee. -/
theorem C10_buyram_fee_bounds (quant : Int) (h : 1 ≤ quant) :
    1 ≤ buyram_fee quant ∧ buyram_fee quant ≤ quant ∧
    (buyram_fee quant = quant ↔ quant = 1) ∧
    (quant = 1 → quant - buyram_fee quant = 0) := by
  have hb : buyram_fee quant = (quant + 199) / 200 :=
    Int.tdiv_eq_ediv (by omega) (by norm_num)
  rw [hb]
  omega

/-- C10 witness at `quant = 1`. -/
theorem C10_buyram_fee_bounds_witness :
    1 ≤ (1 : Int) ∧
    (1 ≤ buyram_fee 1 ∧ buyram_fee 1 ≤ 1 ∧
      (buyram_fee 1 = 1 ↔ (1 : Int) = 1) ∧
      ((1 : Int) = 1 → 1 - buyram_fee 1 = 0)) :=
  ⟨by norm_num, C10_buyram_fee_bounds 1 (by norm_num)⟩

end SnaxSystem
